import Mathlib

/-!
Verification of the kramabench-website leaderboard scripts.

The repository holds two JavaScript variants of the same leaderboard page:
`src/unnamed/part_000` (the oracle-toggle variant, with search) and
`src/script.js` (the simpler single-file variant).  This development gives a
shallow embedding of the pure cores of both scripts — number parsing and
formatting, HTML escaping, the ranking/filtering render, the loader state
transition and the oracle toggle — and proves the testable properties of the
specification against it.

Conventions of the embedding:
* JavaScript numbers are modelled by `JSNum` (NaN, the two infinities, and an
  exact rational).  Double-precision rounding is not modelled; the values
  arising in the claims are small decimal literals that doubles represent
  exactly enough for every comparison and formatting step used by the code.
* Strings are Lean `String`s; JS coercions of `undefined` are made explicit
  (`tmplStr` for template-literal interpolation, `jsOrEmpty` for `x || ''`
  and for the DOM `textContent` setter, which converts `undefined` to null
  and hence to the empty string).
* The DOM is modelled only where the scripts read it back: `escapeHtml` sets
  `div.textContent` and reads `div.innerHTML`, which serialises a text node
  by the WHATWG fragment-serialisation rules — replacing `&`, U+00A0 NBSP,
  `<` and `>` by `&amp;`, `&nbsp;`, `&lt;` and `&gt;` respectively.
-/

namespace Leaderboard

/-- An exact decimal rational `num / 10 ^ den10`.  Every finite number this
page's code produces arises from a decimal literal, so powers of ten suffice
for an exact representation; keeping the denominator as an exponent makes all
arithmetic plain integer arithmetic, which the kernel evaluates directly. -/
structure Dec where
  num : ℤ
  den10 : ℕ
deriving DecidableEq, Repr

/-- The rational value of a `Dec` (used in proofs; the executable path never
needs it). -/
def Dec.toRat (d : Dec) : ℚ :=
  (d.num : ℚ) / (10 : ℚ) ^ d.den10

/-- Negation. -/
def Dec.neg (d : Dec) : Dec :=
  ⟨-d.num, d.den10⟩

/-- Exact subtraction by cross-multiplying the power-of-ten denominators. -/
def Dec.sub (a b : Dec) : Dec :=
  ⟨a.num * 10 ^ b.den10 - b.num * 10 ^ a.den10, a.den10 + b.den10⟩

/-- Scale by a signed power of ten. -/
def Dec.scalePow10 (d : Dec) (e : ℤ) : Dec :=
  if 0 ≤ e then ⟨d.num * 10 ^ e.toNat, d.den10⟩ else ⟨d.num, d.den10 + (-e).toNat⟩

/-- Floor of `d * 10 ^ f + 1 / 2` as an integer — the rounding step of
`toFixed` (`Int.fdiv` is flooring division). -/
def Dec.fixedScaled (f : ℕ) (d : Dec) : ℤ :=
  Int.fdiv (d.num * 10 ^ f * 2 + 10 ^ d.den10) (2 * 10 ^ d.den10)

theorem Dec.toRat_neg (d : Dec) : d.neg.toRat = -d.toRat := by
  simp [Dec.toRat, Dec.neg, neg_div]

theorem Dec.nonneg_iff (d : Dec) : 0 ≤ d.num ↔ 0 ≤ d.toRat := by
  rw [Dec.toRat, le_div_iff₀ (by positivity)]
  constructor
  · intro h
    simpa using h
  · intro h
    have : (0 : ℚ) ≤ (d.num : ℚ) := by simpa using h
    exact_mod_cast this

theorem Dec.nonpos_iff (d : Dec) : d.num ≤ 0 ↔ d.toRat ≤ 0 := by
  rw [Dec.toRat, div_le_iff₀ (by positivity)]
  constructor
  · intro h
    simpa using h
  · intro h
    have : (d.num : ℚ) ≤ 0 := by simpa using h
    exact_mod_cast this

theorem Dec.zero_iff (d : Dec) : d.num = 0 ↔ d.toRat = 0 := by
  rw [Dec.toRat, div_eq_zero_iff]
  constructor
  · intro h
    left
    exact_mod_cast h
  · intro h
    rcases h with h | h
    · exact_mod_cast h
    · exact absurd h (by positivity)

theorem Dec.sub_toRat (a b : Dec) : (a.sub b).toRat = a.toRat - b.toRat := by
  rw [Dec.toRat, Dec.toRat, Dec.toRat, Dec.sub]
  have ha : ((10 : ℚ) ^ a.den10) ≠ 0 := by positivity
  have hb : ((10 : ℚ) ^ b.den10) ≠ 0 := by positivity
  field_simp
  ring

theorem Dec.sub_nonpos_iff (a b : Dec) : (a.sub b).num ≤ 0 ↔ a.toRat ≤ b.toRat := by
  rw [Dec.nonpos_iff, Dec.sub_toRat]
  constructor
  · intro h
    linarith
  · intro h
    linarith

/-- JavaScript number values relevant to this code: NaN, ±Infinity and finite
values (modelled exactly as decimal rationals). -/
inductive JSNum where
  | nan
  | posInf
  | negInf
  | num (d : Dec)
deriving DecidableEq, Repr

/-- Whitespace characters skipped by `parseFloat` and removed by
`String.prototype.trim` (the ECMAScript WhiteSpace/LineTerminator sets,
restricted to the code points that can occur in this data). -/
def jsWhitespace (c : Char) : Bool :=
  c = ' ' || c = '\t' || c = '\n' || c = '\r' || c = Char.ofNat 11 ||
    c = Char.ofNat 12 || c = Char.ofNat 160 || c = Char.ofNat 65279

/-- Longest run of ASCII digits at the head of the list, with the rest. -/
def takeDigits : List Char → List Char × List Char
  | [] => ([], [])
  | c :: cs =>
    if c.isDigit then
      let p := takeDigits cs
      (c :: p.1, p.2)
    else ([], c :: cs)

/-- Numeric value of a digit string. -/
def digitsVal (ds : List Char) : ℕ :=
  ds.foldl (fun a c => 10 * a + (c.toNat - 48)) 0

/-- Decimal exponent part of a `StrDecimalLiteral`: consumed only when `e`/`E`
is followed by at least one digit, otherwise it contributes nothing (the
longest valid prefix stops before it, e.g. `parseFloat "5e+"` is `5`). -/
def parseExpPart (cs : List Char) : ℤ :=
  match cs with
  | [] => 0
  | c :: rest =>
    if c = 'e' || c = 'E' then
      match rest with
      | '+' :: r2 =>
        let p := takeDigits r2
        if p.1.isEmpty then 0 else (digitsVal p.1 : ℤ)
      | '-' :: r2 =>
        let p := takeDigits r2
        if p.1.isEmpty then 0 else -(digitsVal p.1 : ℤ)
      | r2 =>
        let p := takeDigits r2
        if p.1.isEmpty then 0 else (digitsVal p.1 : ℤ)
    else 0

/-- Unsigned decimal literal (`digits [. digits] [exp]` or `. digits [exp]`),
longest valid prefix; `none` when no prefix is a valid literal.  The mantissa
`ints.fracs` is the exact decimal `(ints * 10 ^ |fracs| + fracs) / 10 ^ |fracs|`. -/
def parseDecimal (cs : List Char) : Option Dec :=
  let p := takeDigits cs
  let ints := p.1
  let dotted : Option (List Char × List Char) :=
    match p.2 with
    | '.' :: rest => some (takeDigits rest)
    | _ => none
  let fracs := match dotted with | some q => q.1 | none => []
  let rest2 := match dotted with | some q => q.2 | none => p.2
  if ints.isEmpty && fracs.isEmpty then none
  else
    let mant : Dec :=
      ⟨(digitsVal ints : ℤ) * 10 ^ fracs.length + (digitsVal fracs : ℤ), fracs.length⟩
    some (mant.scalePow10 (parseExpPart rest2))

/-- ECMAScript `parseFloat`: skip whitespace, optional sign, then either the
`Infinity` keyword or the longest decimal-literal prefix; NaN when no valid
prefix exists.  (`-0` is identified with `0`, which is indistinguishable from
JS `-0` under every operation this code performs on scores.) -/
def jsParseFloat (s : String) : JSNum :=
  let cs := s.data.dropWhile jsWhitespace
  let sgncs : Bool × List Char :=
    match cs with
    | '+' :: r => (false, r)
    | '-' :: r => (true, r)
    | _ => (false, cs)
  match sgncs.2 with
  | 'I' :: 'n' :: 'f' :: 'i' :: 'n' :: 'i' :: 't' :: 'y' :: _ =>
    if sgncs.1 then JSNum.negInf else JSNum.posInf
  | rest =>
    match parseDecimal rest with
    | none => JSNum.nan
    | some d => JSNum.num (if sgncs.1 then d.neg else d)

/-- JS `isNaN` on an already-numeric value. -/
def jsIsNaN : JSNum → Bool
  | JSNum.nan => true
  | _ => false

/-- The JS comparison `x >= 0` (false when `x` is NaN). -/
def jsGeZero : JSNum → Bool
  | JSNum.nan => false
  | JSNum.posInf => true
  | JSNum.negInf => false
  | JSNum.num d => decide (0 ≤ d.num)

/-- The JS expression `x || 0`: NaN and ±0 are falsy and give `0`; any other
number is returned unchanged. -/
def jsOrZero (x : JSNum) : JSNum :=
  match x with
  | JSNum.nan => JSNum.num ⟨0, 0⟩
  | JSNum.num d => if d.num = 0 then JSNum.num ⟨0, 0⟩ else JSNum.num d
  | y => y

/-- JS subtraction on the modelled values (∞ − ∞ is NaN, NaN propagates). -/
def jsSub (x y : JSNum) : JSNum :=
  match x, y with
  | JSNum.nan, _ => JSNum.nan
  | _, JSNum.nan => JSNum.nan
  | JSNum.posInf, JSNum.posInf => JSNum.nan
  | JSNum.posInf, _ => JSNum.posInf
  | JSNum.negInf, JSNum.negInf => JSNum.nan
  | JSNum.negInf, _ => JSNum.negInf
  | JSNum.num _, JSNum.posInf => JSNum.negInf
  | JSNum.num _, JSNum.negInf => JSNum.posInf
  | JSNum.num a, JSNum.num b => JSNum.num (a.sub b)

/-- Whether `Array.prototype.sort` treats a comparator result as "keep `a` no
later than `b`": the result `v` satisfies `v ≤ 0`, where SortCompare replaces
a NaN comparator result by `+0`. -/
def jsCmpNonPos (v : JSNum) : Bool :=
  match v with
  | JSNum.nan => true
  | JSNum.posInf => false
  | JSNum.negInf => true
  | JSNum.num d => decide (d.num ≤ 0)

/-- Left-pad a digit string with zeros to the requested width. -/
def padZeros (f : ℕ) (s : String) : String :=
  if f ≤ s.length then s else String.mk (List.replicate (f - s.length) '0') ++ s

/-- Fixed-point rendering of a non-negative decimal with `f` fraction digits,
rounding half towards the larger candidate (`⌊x * 10 ^ f + 1 / 2⌋`) as
`Number.prototype.toFixed` prescribes. -/
def toFixedNonneg (f : ℕ) (d : Dec) : String :=
  let n : ℕ := (Dec.fixedScaled f d).toNat
  if f = 0 then Nat.repr n
  else Nat.repr (n / 10 ^ f) ++ "." ++ padZeros f (Nat.repr (n % 10 ^ f))

/-- JS `Number.prototype.toFixed` on the modelled values (the `≥ 1e21`
fallback to `toString` cannot be reached by this page's percentage data and is
not modelled). -/
def jsToFixed (f : ℕ) (x : JSNum) : String :=
  match x with
  | JSNum.nan => "NaN"
  | JSNum.posInf => "Infinity"
  | JSNum.negInf => "-Infinity"
  | JSNum.num d => if d.num < 0 then "-" ++ toFixedNonneg f d.neg else toFixedNonneg f d

/-- ASCII lower-casing, the fragment of `String.prototype.toLowerCase` (and of
the `i` regex flag canonicalisation) exercised by this page's data. -/
def jsToLowerChar (c : Char) : Char :=
  if 'A' ≤ c && c ≤ 'Z' then Char.ofNat (c.toNat + 32) else c

/-- JS `String.prototype.toLowerCase` (ASCII fragment). -/
def jsToLower (s : String) : String :=
  String.mk (s.data.map jsToLowerChar)

/-- JS `String.prototype.trim`. -/
def jsTrim (s : String) : String :=
  String.mk (((s.data.dropWhile jsWhitespace).reverse.dropWhile jsWhitespace).reverse)

/-- Substring search over character lists (JS `String.prototype.includes`). -/
def listContainsSub (needle : List Char) : List Char → Bool
  | [] => needle.isEmpty
  | c :: t => needle.isPrefixOf (c :: t) || listContainsSub needle t

/-- JS `s.includes(pat)`. -/
def jsIncludes (s pat : String) : Bool :=
  listContainsSub pat.data s.data

/-- Coercion a template literal applies to a possibly-missing field:
`undefined` interpolates as the text "undefined". -/
def tmplStr : Option String → String
  | none => "undefined"
  | some s => s

/-- The JS expression `x || ''` on a possibly-missing string field, which is
also how the DOM `textContent` setter coerces `undefined` (via null) — both
turn a missing value into the empty string. -/
def jsOrEmpty : Option String → String
  | none => ""
  | some s => s

/-- Serialisation of one text character by the WHATWG fragment-serialisation
algorithm (what `div.textContent = t; div.innerHTML` produces): `&`, U+00A0
NBSP, `<` and `>` become entities, everything else passes through. -/
def escapeHtmlChar (c : Char) : String :=
  if c = '&' then "&amp;"
  else if c = Char.ofNat 160 then "&nbsp;"
  else if c = '<' then "&lt;"
  else if c = '>' then "&gt;"
  else String.singleton c

/-- Character-list form of the text-node serialisation. -/
def escapeHtmlList : List Char → List Char
  | [] => []
  | c :: cs => (escapeHtmlChar c).data ++ escapeHtmlList cs

/-- The scripts' `escapeHtml` utility: it routes the text through a detached
`div`'s `textContent`/`innerHTML` pair, i.e. through the serialisation above. -/
def escapeHtml (text : String) : String :=
  String.mk (escapeHtmlList text.data)

/-- Insertion step of a stable comparison sort: `a` is placed before the first
element `b` with `le a b`. -/
def insertLe {α : Type} (le : α → α → Bool) (a : α) : List α → List α
  | [] => [a]
  | b :: bs => if le a b then a :: b :: bs else b :: insertLe le a bs

/-- Stable comparison sort modelling `Array.prototype.sort` with a consistent
comparator: `le a b` holds when the comparator keeps `a` no later than `b`.
(Which stable algorithm the engine uses is unobservable for a consistent
comparator, and no theorem below depends on the order of ties.) -/
def sortLe {α : Type} (le : α → α → Bool) : List α → List α
  | [] => []
  | a :: as => insertLe le a (sortLe le as)

theorem perm_insertLe {α : Type} (le : α → α → Bool) (a : α) (l : List α) :
    List.Perm (insertLe le a l) (a :: l) := by
  induction l with
  | nil => simp [insertLe]
  | cons b bs ih =>
    by_cases h : le a b = true
    · simp [insertLe, h]
    · simp only [insertLe, h, if_false, Bool.false_eq_true]
      exact (ih.cons b).trans (List.Perm.swap a b bs)

theorem perm_sortLe {α : Type} (le : α → α → Bool) (l : List α) :
    List.Perm (sortLe le l) l := by
  induction l with
  | nil => simp [sortLe]
  | cons a as ih => exact (perm_insertLe le a (sortLe le as)).trans (ih.cons a)

theorem mem_sortLe {α : Type} (le : α → α → Bool) (l : List α) (x : α) :
    x ∈ sortLe le l ↔ x ∈ l :=
  (perm_sortLe le l).mem_iff

theorem pairwise_insertLe {α : Type} (le : α → α → Bool) (a : α) (l : List α)
    (hl : l.Pairwise (fun x y => le x y = true))
    (tot : ∀ b ∈ l, le a b = true ∨ le b a = true)
    (tr : ∀ b ∈ l, ∀ c ∈ l, le a b = true → le b c = true → le a c = true) :
    (insertLe le a l).Pairwise (fun x y => le x y = true) := by
  induction l with
  | nil => simp [insertLe]
  | cons b bs ih =>
    rw [List.pairwise_cons] at hl
    by_cases hab : le a b = true
    · simp only [insertLe, hab, if_true]
      refine List.Pairwise.cons ?_ (List.Pairwise.cons hl.1 hl.2)
      intro z hz
      rcases List.mem_cons.mp hz with hz | hz
      · subst hz
        exact hab
      · exact tr b (List.mem_cons_self b bs) z (List.mem_cons_of_mem b hz) hab (hl.1 z hz)
    · simp only [insertLe, hab, if_false, Bool.false_eq_true]
      refine List.Pairwise.cons ?_ ?_
      · intro z hz
        rcases List.mem_cons.mp ((perm_insertLe le a bs).mem_iff.mp hz) with hz | hz
        · subst hz
          rcases tot b (List.mem_cons_self b bs) with h | h
          · exact absurd h hab
          · exact h
        · exact hl.1 z hz
      · exact ih hl.2 (fun c hc => tot c (List.mem_cons_of_mem b hc))
          (fun c hc d hd => tr c (List.mem_cons_of_mem b hc) d (List.mem_cons_of_mem b hd))

theorem pairwise_sortLe {α : Type} (le : α → α → Bool) (l : List α)
    (tot : ∀ a ∈ l, ∀ b ∈ l, le a b = true ∨ le b a = true)
    (tr : ∀ a ∈ l, ∀ b ∈ l, ∀ c ∈ l, le a b = true → le b c = true → le a c = true) :
    (sortLe le l).Pairwise (fun x y => le x y = true) := by
  induction l with
  | nil => simp [sortLe]
  | cons a as ih =>
    refine pairwise_insertLe le a (sortLe le as)
      (ih (fun x hx y hy => tot x (List.mem_cons_of_mem a hx) y (List.mem_cons_of_mem a hy))
          (fun x hx y hy z hz => tr x (List.mem_cons_of_mem a hx) y (List.mem_cons_of_mem a hy)
            z (List.mem_cons_of_mem a hz))) ?_ ?_
    · intro b hb
      exact tot a (List.mem_cons_self a as) b
        (List.mem_cons_of_mem a ((mem_sortLe le as b).mp hb))
    · intro b hb c hc hab hbc
      exact tr a (List.mem_cons_self a as) b
        (List.mem_cons_of_mem a ((mem_sortLe le as b).mp hb)) c
        (List.mem_cons_of_mem a ((mem_sortLe le as c).mp hc)) hab hbc

/-- Lookup in a JS `Map` represented as its insertion sequence: the latest
`set` for a key wins, `get` of an absent key is `undefined` (`none`). -/
def mapGet (m : List (String × ℕ)) (k : String) : Option ℕ :=
  m.foldl (fun acc p => if p.1 = k then some p.2 else acc) none

/-- Fall back to `acc` when the first option is `none`. -/
def optFallback (x : Option ℕ) (acc : Option ℕ) : Option ℕ :=
  match x with
  | some v => some v
  | none => acc

theorem mapGet_foldl_acc (k : String) (m : List (String × ℕ)) :
    ∀ acc, m.foldl (fun acc p => if p.1 = k then some p.2 else acc) acc =
      optFallback (mapGet m k) acc := by
  induction m with
  | nil => intro acc; simp [mapGet, optFallback]
  | cons p m ih =>
    intro acc
    show m.foldl _ (if p.1 = k then some p.2 else acc) = _
    rw [ih]
    show _ = optFallback (m.foldl _ (if p.1 = k then some p.2 else none)) acc
    rw [ih]
    cases hm : mapGet m k with
    | some v => simp [optFallback]
    | none =>
      by_cases hp : p.1 = k <;> simp [optFallback, hp]

theorem mapGet_cons (p : String × ℕ) (m : List (String × ℕ)) (k : String) :
    mapGet (p :: m) k =
      optFallback (mapGet m k) (if p.1 = k then some p.2 else none) := by
  show m.foldl _ (if p.1 = k then some p.2 else none) = _
  rw [mapGet_foldl_acc]

theorem mapGet_eq_none (m : List (String × ℕ)) (k : String)
    (h : k ∉ m.map Prod.fst) : mapGet m k = none := by
  induction m with
  | nil => rfl
  | cons p m ih =>
    rw [mapGet_cons]
    simp only [List.map_cons, List.mem_cons] at h
    push_neg at h
    rw [ih h.2]
    have hp : ¬p.1 = k := fun hp => h.1 hp.symm
    simp [optFallback, hp]

theorem mapGet_isSome (m : List (String × ℕ)) (k : String)
    (h : k ∈ m.map Prod.fst) : (mapGet m k).isSome = true := by
  induction m with
  | nil => simp at h
  | cons p m ih =>
    rw [mapGet_cons]
    simp only [List.map_cons, List.mem_cons] at h
    cases hm : mapGet m k with
    | some v => simp [optFallback]
    | none =>
      rcases h with h | h
      · subst h
        simp [optFallback]
      · have hs := ih h
        rw [hm] at hs
        cases hs

/-- Entries the `forEach` loop feeds to `Map.set`: the key of each list element
paired with its one-based position, offset by `off`. -/
def buildRankMapFrom {α : Type} (key : α → String) (off : ℕ) : List α → List (String × ℕ)
  | [] => []
  | a :: as => (key a, off + 1) :: buildRankMapFrom key (off + 1) as

/-- The `originalRankMap` construction: `map.set(uniqueId, index + 1)` over the
sorted list, in order. -/
def buildRankMap {α : Type} (key : α → String) (l : List α) : List (String × ℕ) :=
  buildRankMapFrom key 0 l

theorem map_fst_buildRankMapFrom {α : Type} (key : α → String) (l : List α) :
    ∀ off, (buildRankMapFrom key off l).map Prod.fst = l.map key := by
  induction l with
  | nil => intro off; rfl
  | cons a as ih => intro off; simp [buildRankMapFrom, ih]

theorem mapGet_buildRankMapFrom {α : Type} (key : α → String) (l : List α)
    (hnd : (l.map key).Nodup) :
    ∀ off i (hi : i < l.length),
      mapGet (buildRankMapFrom key off l) (key (l.get ⟨i, hi⟩)) = some (off + i + 1) := by
  induction l with
  | nil => intro off i hi; cases hi
  | cons a as ih =>
    intro off i hi
    simp only [List.map_cons, List.nodup_cons] at hnd
    cases i with
    | zero =>
      show mapGet ((key a, off + 1) :: buildRankMapFrom key (off + 1) as) (key a) = _
      rw [mapGet_cons, mapGet_eq_none]
      · simp [optFallback]
      · rw [map_fst_buildRankMapFrom]
        exact hnd.1
    | succ j =>
      show mapGet ((key a, off + 1) :: buildRankMapFrom key (off + 1) as) _ = _
      rw [mapGet_cons]
      have hj : j < as.length := Nat.lt_of_succ_lt_succ hi
      have := ih hnd.2 (off + 1) j hj
      simp only [List.get_cons_succ]
      rw [this]
      simp only [optFallback]
      congr 1
      omega

theorem mapGet_buildRankMap_isSome {α : Type} (key : α → String) (l : List α)
    (a : α) (ha : a ∈ l) : (mapGet (buildRankMap key l) (key a)).isSome = true := by
  apply mapGet_isSome
  rw [buildRankMap, map_fst_buildRankMapFrom]
  exact List.mem_map_of_mem key ha

/-- The JS expression `rank || 999` where `rank` is a `Map.get` result:
`undefined` and `0` are falsy (ranks are always ≥ 1, so the `0` branch is
unreachable in practice but kept for fidelity). -/
def jsRankOr999 (x : Option ℕ) : ℕ :=
  match x with
  | none => 999
  | some 0 => 999
  | some n => n

/-- One token of the compiled search pattern.  The script builds its highlight
regex as `new RegExp('(' + escapeHtml(term.trim()) + ')', 'gi')`: the escaped
term is interpreted as regex source, so `.` is a metacharacter. -/
inductive PatTok where
  | lit (c : Char)
  | dot
deriving DecidableEq, Repr

/-- Regex source characters, other than `.`, that do not stand for themselves
(or would make the pattern invalid).  Patterns containing them are outside the
modelled fragment. -/
def regexMeta (c : Char) : Bool :=
  c = '\\' || c = '^' || c = '$' || c = '*' || c = '+' || c = '?' ||
    c = '(' || c = ')' || c = '[' || c = ']' || c = Char.ofNat 123 ||
    c = Char.ofNat 125 || c = '|'

/-- Compile the regex source into tokens; `none` when the source uses a
metacharacter beyond `.` (such patterns backtrack or throw and are not
modelled — no theorem below depends on them). -/
def compilePattern : List Char → Option (List PatTok)
  | [] => some []
  | c :: cs =>
    if c = '.' then (compilePattern cs).map (fun ts => PatTok.dot :: ts)
    else if regexMeta c then none
    else (compilePattern cs).map (fun ts => PatTok.lit c :: ts)

/-- Single-character match under the `i` flag: a literal compares after case
canonicalisation, `.` matches anything but a line terminator. -/
def patCharMatch (t : PatTok) (c : Char) : Bool :=
  match t with
  | PatTok.dot => !(c = '\n' || c = '\r' || c = Char.ofNat 8232 || c = Char.ofNat 8233)
  | PatTok.lit a => jsToLowerChar a = jsToLowerChar c

/-- Whether the (fixed-length) pattern matches a prefix of the text. -/
def matchesAt : List PatTok → List Char → Bool
  | [], _ => true
  | _ :: _, [] => false
  | t :: ts, c :: cs => patCharMatch t c && matchesAt ts cs

/-- Wrap a matched segment in the `<mark>` replacement the script uses
(`'<mark>$1</mark>'`, where `$1` is the matched text). -/
def markWrap (seg : List Char) : List Char :=
  "<mark>".data ++ seg ++ "</mark>".data

/-- Fuel-bounded scan of the global replacement (structural recursion on the
fuel; with fuel at least the text length and a non-empty pattern, the
zero-fuel branch is unreachable). -/
def replaceAux (ts : List PatTok) : ℕ → List Char → List Char
  | _, [] => []
  | 0, _ :: _ => []
  | fuel + 1, c :: cs =>
    if matchesAt ts (c :: cs) then
      markWrap (List.take ts.length (c :: cs)) ++
        replaceAux ts fuel (List.drop ts.length (c :: cs))
    else c :: replaceAux ts fuel cs

/-- Global regex replacement as `String.prototype.replace` with a `g` flag
performs it: scan left to right, wrap each leftmost non-overlapping match,
resume after the match.  (The script's patterns are never empty: they come
from `escapeHtml` of a non-blank trimmed term; the empty-pattern guard keeps
the model total.) -/
def replaceAllMarks (ts : List PatTok) (hay : List Char) : List Char :=
  if ts.isEmpty then hay else replaceAux ts hay.length hay

theorem replaceAux_congr (ts : List PatTok) (hts : 0 < ts.length) :
    ∀ (n : ℕ) (hay : List Char), hay.length ≤ n →
      ∀ f f', hay.length ≤ f → hay.length ≤ f' →
        replaceAux ts f hay = replaceAux ts f' hay := by
  intro n
  induction n with
  | zero =>
    intro hay hn f f' hf hf'
    have : hay = [] := List.eq_nil_of_length_eq_zero (Nat.le_zero.mp hn)
    subst this
    cases f <;> cases f' <;> rfl
  | succ n ih =>
    intro hay hn f f' hf hf'
    cases hay with
    | nil => cases f <;> cases f' <;> rfl
    | cons c cs =>
      simp only [List.length_cons] at hn hf hf'
      cases f with
      | zero => omega
      | succ f =>
        cases f' with
        | zero => omega
        | succ f' =>
          show (if matchesAt ts (c :: cs) then _ else _) = (if matchesAt ts (c :: cs) then _ else _)
          by_cases hm : matchesAt ts (c :: cs) = true
          · simp only [hm, if_true]
            congr 1
            apply ih
            · simp only [List.length_drop, List.length_cons]
              omega
            · simp only [List.length_drop, List.length_cons]
              omega
            · simp only [List.length_drop, List.length_cons]
              omega
          · simp only [hm, if_false, Bool.false_eq_true]
            congr 1
            apply ih <;> omega

/-- Scanner deciding that every `<` in a character list opens a `<mark>` or
`</mark>` tag — i.e. that highlighting introduced no markup beyond the
highlight marker itself. -/
def marksOnlyB : List Char → Bool
  | [] => true
  | c :: cs =>
    if c = '<' then
      ("mark>".data.isPrefixOf cs || "/mark>".data.isPrefixOf cs) && marksOnlyB cs
    else marksOnlyB cs

theorem marksOnlyB_append_noLt (pre : List Char) (s : List Char)
    (h : '<' ∉ pre) : marksOnlyB (pre ++ s) = marksOnlyB s := by
  induction pre with
  | nil => rfl
  | cons c cs ih =>
    simp only [List.mem_cons] at h
    push_neg at h
    show marksOnlyB (c :: (cs ++ s)) = _
    have hc : ¬c = '<' := fun hc => h.1 hc.symm
    simp only [marksOnlyB, hc, if_false]
    exact ih h.2

theorem marksOnlyB_markWrap (seg t : List Char) (hseg : '<' ∉ seg)
    (ht : marksOnlyB t = true) : marksOnlyB (markWrap seg ++ t) = true := by
  have heq : markWrap seg ++ t =
      '<' :: ("mark>".data ++ (seg ++ ('<' :: ("/mark>".data ++ t)))) := by
    rw [markWrap, List.append_assoc, List.append_assoc]
    rfl
  rw [heq, marksOnlyB]
  simp only [if_pos rfl]
  have h1 : ("mark>".data).isPrefixOf ("mark>".data ++ (seg ++ ('<' :: ("/mark>".data ++ t)))) = true := by
    rw [List.isPrefixOf_iff_prefix]
    exact List.prefix_append _ _
  rw [h1]
  simp only [Bool.true_or, Bool.true_and]
  rw [marksOnlyB_append_noLt _ _ (by decide)]
  rw [marksOnlyB_append_noLt _ _ hseg]
  rw [marksOnlyB]
  simp only [if_pos rfl]
  have h2 : ("/mark>".data).isPrefixOf ("/mark>".data ++ t) = true := by
    rw [List.isPrefixOf_iff_prefix]
    exact List.prefix_append _ _
  rw [h2]
  simp only [Bool.or_true, Bool.true_and]
  rw [marksOnlyB_append_noLt _ _ (by decide)]
  exact ht

theorem marksOnlyB_noLt (s : List Char) (h : '<' ∉ s) : marksOnlyB s = true := by
  have := marksOnlyB_append_noLt s [] h
  simpa using this

theorem replaceAllMarks_empty (ts : List PatTok) (hay : List Char)
    (hts : ts.isEmpty = true) : replaceAllMarks ts hay = hay := by
  rw [replaceAllMarks, if_pos hts]

theorem replaceAllMarks_nil (ts : List PatTok) : replaceAllMarks ts [] = [] := by
  rw [replaceAllMarks]
  split
  · rfl
  · rfl

theorem replaceAllMarks_cons (ts : List PatTok) (c : Char) (cs : List Char)
    (hts : ¬ts.isEmpty = true) :
    replaceAllMarks ts (c :: cs) =
      if matchesAt ts (c :: cs) then
        markWrap (List.take ts.length (c :: cs)) ++
          replaceAllMarks ts (List.drop ts.length (c :: cs))
      else c :: replaceAllMarks ts cs := by
  have hlen : 0 < ts.length := by
    cases ts with
    | nil => simp at hts
    | cons a b => simp
  rw [replaceAllMarks, if_neg hts]
  show (if matchesAt ts (c :: cs) then _ else _) = _
  by_cases hm : matchesAt ts (c :: cs) = true
  · simp only [hm, if_true]
    congr 1
    rw [replaceAllMarks, if_neg hts]
    apply replaceAux_congr ts hlen (cs.length + 1)
    · simp only [List.length_drop, List.length_cons]
      omega
    · simp only [List.length_drop, List.length_cons]
      omega
    · exact le_rfl
  · simp only [hm, if_false, Bool.false_eq_true]
    congr 1
    rw [replaceAllMarks, if_neg hts]

theorem marksOnlyB_replaceAllMarks (ts : List PatTok) (hay : List Char)
    (h : '<' ∉ hay) : marksOnlyB (replaceAllMarks ts hay) = true := by
  by_cases hts : ts.isEmpty = true
  · rw [replaceAllMarks_empty ts hay hts]
    exact marksOnlyB_noLt hay h
  · have hlen : 0 < ts.length := by
      cases ts with
      | nil => simp at hts
      | cons a b => simp
    have main : ∀ n (hay : List Char), hay.length ≤ n → '<' ∉ hay →
        marksOnlyB (replaceAllMarks ts hay) = true := by
      intro n
      induction n with
      | zero =>
        intro hay hl hmem
        have : hay = [] := List.eq_nil_of_length_eq_zero (Nat.le_zero.mp hl)
        subst this
        rw [replaceAllMarks_nil]
        rfl
      | succ n ih =>
        intro hay hl hmem
        cases hay with
        | nil =>
          rw [replaceAllMarks_nil]
          rfl
        | cons c cs =>
          rw [replaceAllMarks_cons ts c cs hts]
          simp only [List.mem_cons] at hmem
          push_neg at hmem
          by_cases hm : matchesAt ts (c :: cs) = true
          · simp only [hm, if_true]
            apply marksOnlyB_markWrap
            · intro hlt
              have := List.take_subset ts.length (c :: cs) hlt
              simp only [List.mem_cons] at this
              rcases this with h1 | h1
              · exact hmem.1 h1
              · exact hmem.2 h1
            · apply ih
              · simp only [List.length_drop, List.length_cons]
                simp only [List.length_cons] at hl
                omega
              · intro hlt
                have := List.drop_subset ts.length (c :: cs) hlt
                simp only [List.mem_cons] at this
                rcases this with h1 | h1
                · exact hmem.1 h1
                · exact hmem.2 h1
          · simp only [hm, if_false, Bool.false_eq_true]
            have hc : ¬c = '<' := fun hc => hmem.1 hc.symm
            rw [marksOnlyB]
            simp only [hc, if_false]
            apply ih
            · simp only [List.length_cons] at hl
              omega
            · exact hmem.2
    exact main hay.length hay le_rfl h

theorem escapeHtmlChar_no_lt (c : Char) : '<' ∉ (escapeHtmlChar c).data := by
  rw [escapeHtmlChar]
  by_cases h1 : c = '&'
  · simp [h1]
  by_cases h2 : c = Char.ofNat 160
  · simp [h1, h2]
  by_cases h3 : c = '<'
  · simp [h1, h2, h3]
  by_cases h4 : c = '>'
  · simp [h1, h2, h3, h4]
  · simp only [h1, h2, h3, h4, if_false]
    intro hmem
    have : '<' = c := by simpa [String.singleton] using hmem
    exact h3 this.symm

theorem escapeHtmlList_no_lt (s : List Char) : '<' ∉ escapeHtmlList s := by
  induction s with
  | nil => simp [escapeHtmlList]
  | cons c cs ih =>
    rw [escapeHtmlList]
    intro hmem
    rcases List.mem_append.mp hmem with h | h
    · exact escapeHtmlChar_no_lt c h
    · exact ih h

/-- Calendar helper for the ISO date check. -/
def isLeapYear (y : ℕ) : Bool :=
  (y % 4 = 0 && decide (y % 100 ≠ 0)) || y % 400 = 0

/-- Days in a month of a given year. -/
def daysInMonth (y m : ℕ) : ℕ :=
  if m = 1 || m = 3 || m = 5 || m = 7 || m = 8 || m = 10 || m = 12 then 31
  else if m = 4 || m = 6 || m = 9 || m = 11 then 30
  else if isLeapYear y then 29 else 28

/-- Date recognition of `new Date(string)`, restricted to the ISO date-only
format `YYYY-MM-DD` used by this repository's data.  Engines accept further
implementation-defined formats, none of which this data uses; every string
outside the modelled format is treated as an invalid date (`none`), which is
what engines do for strings such as "not-a-date". -/
def jsDateParse (s : String) : Option (ℕ × ℕ × ℕ) :=
  match s.data with
  | [y1, y2, y3, y4, '-', m1, m2, '-', d1, d2] =>
    if y1.isDigit && y2.isDigit && y3.isDigit && y4.isDigit &&
        m1.isDigit && m2.isDigit && d1.isDigit && d2.isDigit then
      let y := digitsVal [y1, y2, y3, y4]
      let m := digitsVal [m1, m2]
      let d := digitsVal [d1, d2]
      if 1 ≤ m && m ≤ 12 && 1 ≤ d && d ≤ daysInMonth y m then some (y, m, d) else none
    else none
  | _ => none

/-- English month abbreviation as `toLocaleDateString('en-US', ...)` with
`month: 'short'` renders it. -/
def monthAbbrev (m : ℕ) : String :=
  if m = 1 then "Jan" else if m = 2 then "Feb" else if m = 3 then "Mar"
  else if m = 4 then "Apr" else if m = 5 then "May" else if m = 6 then "Jun"
  else if m = 7 then "Jul" else if m = 8 then "Aug" else if m = 9 then "Sep"
  else if m = 10 then "Oct" else if m = 11 then "Nov" else "Dec"

/-- The scripts' `formatDate`.  `new Date(string)` never throws — an
unrecognised string yields an invalid date — and `toLocaleDateString` of an
invalid date returns the string "Invalid Date" rather than throwing, so the
`catch` branch that would return the raw input is unreachable.  Parsable
dates are rendered in the `en-US` `month-short` style (shown here for the
UTC interpretation of the date-only string; a viewer in a timezone west of
UTC would see the previous day, a platform detail irrelevant to the claims). -/
def formatDate (dateString : String) : String :=
  match jsDateParse dateString with
  | some (y, m, d) => monthAbbrev m ++ " " ++ Nat.repr d ++ ", " ++ Nat.repr y
  | none => "Invalid Date"

namespace Toggle

/-- One parsed CSV row of the oracle-toggle variant (`src/unnamed/part_000`):
`Papa.parse` with headers yields an object whose `System` and `Models` fields
may be absent, plus one string per further column (the per-domain scores).
Other columns than the ones accessed by the script are irrelevant to it and
list membership models the object's remaining properties. -/
structure Row where
  System : Option String
  Models : Option String
  scores : List (String × String)
deriving DecidableEq, Repr

/-- Property access `entry[name]` on a row object. -/
def colValue (e : Row) (name : String) : Option String :=
  if name = "System" then e.System
  else if name = "Models" then e.Models
  else e.scores.lookup name

/-- The load-time filter of `loadLeaderboard`
(`d.System && d.System.trim() !== ''`): a missing field and the empty string
are both falsy, so the test collapses to "present with non-blank trim". -/
def fieldOk : Option String → Bool
  | none => false
  | some s => decide (jsTrim s ≠ "")

/-- Row predicate of the load-time filter: this variant requires both the
`System` and the `Models` field to be present and non-blank. -/
def keepRow (d : Row) : Bool :=
  fieldOk d.System && fieldOk d.Models

/-- The dataset stored by a successful load. -/
def loadFilter (parsed : List Row) : List Row :=
  parsed.filter keepRow

/-- Domain-name adjustment
(`domain.charAt(0).toUpperCase() + domain.slice(1)`). -/
def adjustDomain (domain : String) : String :=
  match domain.data with
  | [] => ""
  | c :: cs => String.mk (c.toUpper :: cs)

/-- The "valid for this column" predicate of `displayLeaderboard`:
`!isNaN(parseFloat(entry[dom])) && parseFloat(entry[dom]) >= 0`. -/
def validForB (dom : String) (e : Row) : Bool :=
  let score := jsParseFloat (tmplStr (colValue e dom))
  !(jsIsNaN score) && jsGeZero score

/-- Truthiness test `searchTerm && searchTerm.trim() !== ''` deciding whether
a search is active. -/
def hasSearch (searchTerm : String) : Bool :=
  decide (searchTerm ≠ "") && decide (jsTrim searchTerm ≠ "")

/-- Search predicate: the lowercased `System` or `Models` text contains the
normalised term (`(entry.System || '').toLowerCase().includes(norm)`). -/
def matchesSearch (norm : String) (e : Row) : Bool :=
  jsIncludes (jsToLower (jsOrEmpty e.System)) norm ||
    jsIncludes (jsToLower (jsOrEmpty e.Models)) norm

/-- The row's score as the render uses it: `parseFloat(entry[dom]) || 0`. -/
def scoreOrZero (dom : String) (e : Row) : JSNum :=
  jsOrZero (jsParseFloat (tmplStr (colValue e dom)))

/-- The composite identity key
`` `${entry.System}-${entry.Models}-${score.toFixed(3)}` ``. -/
def uniqueId (dom : String) (e : Row) : String :=
  tmplStr e.System ++ "-" ++ tmplStr e.Models ++ "-" ++
    jsToFixed 3 (scoreOrZero dom e)

/-- Sort relation of the score-descending sorts: the comparator
`scoreB - scoreA` keeps `a` no later than `b` when its value is ≤ 0. -/
def descLe (dom : String) (a b : Row) : Bool :=
  jsCmpNonPos (jsSub (scoreOrZero dom b) (scoreOrZero dom a))

/-- All rows valid for the column, sorted descending by score — the list the
global ranks are read off from (`allValidData`). -/
def allValidSorted (data : List Row) (dom : String) : List Row :=
  sortLe (descLe dom) (data.filter (validForB dom))

/-- The `originalRankMap`: `uniqueId → index + 1` over `allValidSorted`. -/
def originalRankMap (data : List Row) (dom : String) : List (String × ℕ) :=
  buildRankMap (uniqueId dom) (allValidSorted data dom)

/-- Rank lookup with the comparator's `|| 999` fallback. -/
def rankOr999 (m : List (String × ℕ)) (dom : String) (e : Row) : ℕ :=
  jsRankOr999 (mapGet m (uniqueId dom e))

/-- Sort relation of the display sort (`sortedData`): by looked-up global rank
when a search is active, by descending score otherwise. -/
def displaySortLe (m : List (String × ℕ)) (dom searchTerm : String) (a b : Row) : Bool :=
  if hasSearch searchTerm then
    decide (rankOr999 m dom a ≤ rankOr999 m dom b)
  else descLe dom a b

/-- The `validData` list after the optional search narrowing. -/
def searchedValid (data : List Row) (dom searchTerm : String) : List Row :=
  let valid := data.filter (validForB dom)
  if hasSearch searchTerm then
    valid.filter (matchesSearch (jsToLower (jsTrim searchTerm)))
  else valid

/-- Name/model cell text: escape first, then (when a search is active) wrap
the matches of the escaped term — used as regex source — in `<mark>` tags. -/
def highlightedText (searchTerm raw : String) : String :=
  let escaped := escapeHtmlList raw.data
  if hasSearch searchTerm then
    match compilePattern (escapeHtmlList (jsTrim searchTerm).data) with
    | some ts => String.mk (replaceAllMarks ts escaped)
    | none => String.mk escaped
  else String.mk escaped

/-- One rendered table row.  `entry` records which dataset row produced it;
the remaining fields are the cell contents the script writes
(`rank`, highlighted system/model text, the formatted score) and the medal
class added for original ranks 1–3. -/
structure RenderedRow where
  entry : Row
  rank : Option ℕ
  medalClass : Option String
  systemText : String
  modelText : String
  scoreCell : String
deriving DecidableEq, Repr

/-- Render one row as the `forEach` body does. -/
def renderRow (m : List (String × ℕ)) (dom searchTerm : String) (e : Row) : RenderedRow :=
  let score := scoreOrZero dom e
  let rank := mapGet m (uniqueId dom e)
  { entry := e
    rank := rank
    medalClass :=
      match rank with
      | some r => if r ≤ 3 then some ("rank-" ++ Nat.repr r) else none
      | none => none
    systemText := highlightedText searchTerm (jsOrEmpty e.System)
    modelText := highlightedText searchTerm (jsOrEmpty e.Models)
    scoreCell := jsToFixed 1 score ++ "%" }

/-- Outcome of one `displayLeaderboard` call: one of the two informational
rows, or the rendered table rows. -/
inductive RenderResult where
  | noData
  | noMatching
  | table (rows : List RenderedRow)
deriving DecidableEq, Repr

/-- The oracle-toggle variant's `displayLeaderboard(domain, searchTerm)` as a
function of the stored dataset. -/
def displayLeaderboard (data : List Row) (domain searchTerm : String) : RenderResult :=
  if data.isEmpty then RenderResult.noData
  else
    let dom := adjustDomain domain
    let searched := searchedValid data dom searchTerm
    if searched.isEmpty then RenderResult.noMatching
    else
      let m := originalRankMap data dom
      let sorted := sortLe (displaySortLe m dom searchTerm) searched
      RenderResult.table (sorted.map (renderRow m dom searchTerm))

/-- The literal informational message each empty outcome writes into the
table body (`tbody.innerHTML` text of the single row). -/
def messageOf : RenderResult → Option String
  | RenderResult.noData => some "No data available"
  | RenderResult.noMatching => some "No matching results found"
  | RenderResult.table _ => none

/-- The rank-cell contents of a rendered table, when a table was rendered. -/
def ranksOf : RenderResult → Option (List (Option ℕ))
  | RenderResult.table rows => some (rows.map RenderedRow.rank)
  | _ => none

/-- A dataset row appears in the rendered output. -/
def appearsIn (res : RenderResult) (e : Row) : Prop :=
  ∃ rows, res = RenderResult.table rows ∧ ∃ r ∈ rows, r.entry = e

/-- What the table body shows: an error row (with its full HTML) or the
rendered view. -/
inductive TBody where
  | errorRow (html : String)
  | view (r : RenderResult)
deriving DecidableEq, Repr

/-- Page state touched by the loader and the toggle handler. -/
structure PageState where
  dataset : List Row
  tbody : TBody
  titleText : String
  checked : Bool
  isOracleMode : Bool
deriving DecidableEq, Repr

/-- Result of the awaited fetch: a rejected promise (network failure) carrying
an error message, or a response with its `ok` flag, status and body text. -/
inductive FetchOutcome where
  | networkError (msg : String)
  | httpResponse (ok : Bool) (status : ℕ) (body : String)
deriving DecidableEq, Repr

/-- The CSV resource `loadLeaderboard` requests for a mode flag value. -/
def requestedCsv (oracle : Bool) : String :=
  if oracle then "data/benchmark_oracle.csv" else "data/benchmark_results.csv"

/-- The error message thrown for a non-success HTTP status. -/
def httpErrorMessage (status : ℕ) : String :=
  "HTTP error! status: " ++ Nat.repr status

/-- The single error row written by the catch branch. -/
def errorRowHtml (msg : String) : String :=
  "<tr><td colspan=\"4\" style=\"text-align: center; color: #dc3545;\">Error loading leaderboard data: " ++
    msg ++ "</td></tr>"

/-- One `loadLeaderboard` run: request the file for the current mode, then on
success parse (the CSV parser is the black-box parameter `papa`), filter,
replace the dataset and render; on any failure leave the dataset alone and
write the error row.  The returned string is the requested resource path. -/
def loadLeaderboard (papa : String → List Row) (st : PageState)
    (domain searchTerm : String) (outcome : FetchOutcome) : PageState × String :=
  let req := requestedCsv st.isOracleMode
  match outcome with
  | FetchOutcome.networkError msg =>
    ({ st with tbody := TBody.errorRow (errorRowHtml msg) }, req)
  | FetchOutcome.httpResponse ok status body =>
    if ok then
      let ldata := loadFilter (papa body)
      ({ st with
          dataset := ldata
          tbody := TBody.view (displayLeaderboard ldata domain searchTerm) }, req)
    else
      ({ st with tbody := TBody.errorRow (errorRowHtml (httpErrorMessage status)) }, req)

/-- The heading text for a mode flag value. -/
def oracleTitle (oracle : Bool) : String :=
  if oracle then "Current Rankings (Oracle Inputs)" else "Current Rankings"

/-- The container/keyboard `toggleHandler`: flip the checkbox, sync the mode
flag, update the heading, then reload (which requests the file for the new
mode). -/
def toggleHandler (papa : String → List Row) (st : PageState)
    (domain searchTerm : String) (outcome : FetchOutcome) : PageState × String :=
  let newChecked := !st.checked
  let st1 := { st with
                checked := newChecked
                isOracleMode := newChecked
                titleText := oracleTitle newChecked }
  loadLeaderboard papa st1 domain searchTerm outcome

end Toggle

namespace Simple

/-- One parsed CSV row of the single-file variant (`src/script.js`): a `team`
field, the presentation columns, and the per-domain scores. -/
structure SRow where
  team : Option String
  runtime : Option String
  date : Option String
  paper_url : Option String
  scores : List (String × String)
deriving DecidableEq, Repr

/-- Property access `entry[name]` on a row object. -/
def colValue (e : SRow) (name : String) : Option String :=
  if name = "team" then e.team
  else if name = "runtime" then e.runtime
  else if name = "date" then e.date
  else if name = "paper_url" then e.paper_url
  else e.scores.lookup name

/-- Load-time filter: this variant only requires the team name
(`d.team && d.team.trim() !== ''`). -/
def keepRow (d : SRow) : Bool :=
  Toggle.fieldOk d.team

/-- The dataset stored by a successful load. -/
def loadFilter (parsed : List SRow) : List SRow :=
  parsed.filter keepRow

/-- The "valid for this column" predicate — identical test to the toggle
variant, but on the raw (unadjusted) domain name. -/
def validForB (dom : String) (e : SRow) : Bool :=
  let score := jsParseFloat (tmplStr (colValue e dom))
  !(jsIsNaN score) && jsGeZero score

/-- Score used for sorting and display: `parseFloat(entry[domain]) || 0`. -/
def scoreOrZero (dom : String) (e : SRow) : JSNum :=
  jsOrZero (jsParseFloat (tmplStr (colValue e dom)))

/-- Score-descending sort relation (comparator `scoreB - scoreA`). -/
def descLe (dom : String) (a b : SRow) : Bool :=
  jsCmpNonPos (jsSub (scoreOrZero dom b) (scoreOrZero dom a))

/-- The paper-link cell: the escaped URL is interpolated into a double-quoted
`href` attribute. -/
def paperCell (url : Option String) : String :=
  "<a href=\"" ++ escapeHtml (jsOrEmpty url) ++
    "\" target=\"_blank\" title=\"View paper\">" ++ "📄" ++ "</a>"

/-- One rendered row of the simple variant: positional rank `i + 1`, escaped
team name, score, runtime, date and paper link. -/
structure SRenderedRow where
  entry : SRow
  rank : ℕ
  medalClass : Option String
  teamCell : String
  scoreCell : String
  runtimeCell : String
  dateCell : String
  paperLink : String
deriving DecidableEq, Repr

/-- Render the row at (zero-based) position `i` of the sorted list. -/
def renderRow (dom : String) (i : ℕ) (e : SRow) : SRenderedRow :=
  { entry := e
    rank := i + 1
    medalClass := if i < 3 then some ("rank-" ++ Nat.repr (i + 1)) else none
    teamCell := escapeHtml (jsOrEmpty e.team)
    scoreCell := jsToFixed 1 (scoreOrZero dom e) ++ "%"
    runtimeCell := jsToFixed 1 (jsOrZero (jsParseFloat (tmplStr e.runtime))) ++ "s"
    dateCell := formatDate (tmplStr e.date)
    paperLink := paperCell e.paper_url }

/-- Outcome of one render of the simple variant: it distinguishes an empty
dataset from a dataset with no valid rows for the domain (and has no search). -/
inductive SResult where
  | noData
  | noDomainData
  | table (rows : List SRenderedRow)
deriving DecidableEq, Repr

/-- The single-file variant's `displayLeaderboard(domain)`. -/
def displayLeaderboard (data : List SRow) (domain : String) : SResult :=
  if data.isEmpty then SResult.noData
  else
    let valid := data.filter (validForB domain)
    if valid.isEmpty then SResult.noDomainData
    else
      let sorted := sortLe (descLe domain) valid
      SResult.table (sorted.enum.map (fun p => renderRow domain p.1 p.2))

/-- The literal informational message of each empty outcome. -/
def messageOf : SResult → Option String
  | SResult.noData => some "No data available"
  | SResult.noDomainData => some "No data available for this domain"
  | SResult.table _ => none

end Simple

/-!
Specification-side definitions.  Each follows the wording of a claim (not the
code) so that a claim can be compared with the behaviour of the embedded
functions; they are used only in theorems that confirm or refute claims.
-/

/-- The claim's "valid" predicate as worded: the value parses to a
non-negative finite number. -/
def specFiniteNonNegative (v : String) : Prop :=
  ∃ d : Dec, jsParseFloat v = JSNum.num d ∧ 0 ≤ d.toRat

/-- Highlighting as the claim words it: wrap case-insensitive occurrences of
the literal search term (each character taken literally) inside the
already-escaped text. -/
def specLiteralHighlight (searchTerm raw : String) : String :=
  String.mk (replaceAllMarks ((escapeHtmlList (jsTrim searchTerm).data).map PatTok.lit)
    (escapeHtmlList raw.data))

/-- Escaping as claim C10 words it: replace only `&`, `<` and `>`, leave every
other character unchanged. -/
def escapeHtmlClaimedChar (c : Char) : String :=
  if c = '&' then "&amp;"
  else if c = '<' then "&lt;"
  else if c = '>' then "&gt;"
  else String.singleton c

/-- String form of the claimed escaping. -/
def escapeHtmlClaimed (text : String) : String :=
  String.join (text.data.map escapeHtmlClaimedChar)

/-- Rank sequence as claim C2 words it: the ranks attached to the rendered
rows are exactly `1, 2, ..., N` in order. -/
def strictRanks (rs : List (Option ℕ)) : Prop :=
  rs = (List.range rs.length).map (fun i => some (i + 1))

/-!
Concrete sample rows used by counterexamples and witnesses.
-/

/-- Sample row: Alpha / M1, Overall 90. -/
def rowA : Toggle.Row := ⟨some "Alpha", some "M1", [("Overall", "90")]⟩

/-- Sample row: Beta / M2, Overall 80. -/
def rowB : Toggle.Row := ⟨some "Beta", some "M2", [("Overall", "80")]⟩

/-- Sample row whose Overall value is the string "Infinity". -/
def rowInf : Toggle.Row := ⟨some "Inf", some "M", [("Overall", "Infinity")]⟩

/-- Two distinct rows agreeing on System, Models and the Overall score (they
differ in the Legal column), which therefore collide on the composite
identity key. -/
def rowDup1 : Toggle.Row := ⟨some "A", some "M", [("Overall", "50"), ("Legal", "10")]⟩

/-- Second of the colliding pair. -/
def rowDup2 : Toggle.Row := ⟨some "A", some "M", [("Overall", "50"), ("Legal", "20")]⟩

/-- Sample row for the single-file variant. -/
def srowA : Simple.SRow :=
  ⟨some "A", some "1.0", some "2024-01-01", some "http://x", [("overall", "90")]⟩

/-- A middle factor of a string concatenation is an infix of its characters. -/
theorem str_infix_middle (a b c : String) : List.IsInfix b.data (a ++ b ++ c).data :=
  ⟨a.data, c.data, by simp [String.data_append]⟩

/-- The failure message is contained in the error row the catch branch writes. -/
theorem msg_infix_errorRowHtml (msg : String) :
    List.IsInfix msg.data (Toggle.errorRowHtml msg).data := by
  simp only [Toggle.errorRowHtml]
  exact str_infix_middle _ msg _

/-- C6 counterexample: a parsed row whose identifying `System` field is
non-blank but whose `Models` field is the empty string is discarded by the
toggle variant's load filter, contradicting the claim that the model label is
optional. -/
theorem c6_cx_blank_model_row_dropped :
    Toggle.loadFilter [⟨some "A", some "", []⟩] = [] ∧
    Toggle.fieldOk (some "A") = true := by
  exact ⟨by decide, by decide⟩

/-- C6 (amended): at load time the toggle variant keeps a parsed row iff both
the `System` and the `Models` field are present and non-blank after trimming
(the model label is required there, not optional); the single-file variant
keeps a row iff its `team` field is present and non-blank. -/
theorem c6_load_filter_characterisation :
    (∀ (parsed : List Toggle.Row) (d : Toggle.Row),
      d ∈ Toggle.loadFilter parsed ↔
        d ∈ parsed ∧ Toggle.fieldOk d.System = true ∧ Toggle.fieldOk d.Models = true) ∧
    (∀ (parsed : List Simple.SRow) (d : Simple.SRow),
      d ∈ Simple.loadFilter parsed ↔ d ∈ parsed ∧ Toggle.fieldOk d.team = true) := by
  constructor
  · intro parsed d
    simp [Toggle.loadFilter, Toggle.keepRow, List.mem_filter, Bool.and_eq_true]
  · intro parsed d
    simp [Simple.loadFilter, Simple.keepRow, List.mem_filter]

/-- C7: when the load fails — the fetch rejects, or the response status is not
ok — the stored dataset is left exactly as it was, and the table body is
replaced by the single error row, whose text contains the failure's message
(for an HTTP failure, the thrown `HTTP error! status: N` message). -/
theorem c7_load_failure_keeps_dataset (papa : String → List Toggle.Row)
    (st : Toggle.PageState) (domain searchTerm msg : String) (status : ℕ) (body : String) :
    ((Toggle.loadLeaderboard papa st domain searchTerm
        (Toggle.FetchOutcome.networkError msg)).1.dataset = st.dataset ∧
      (Toggle.loadLeaderboard papa st domain searchTerm
        (Toggle.FetchOutcome.networkError msg)).1.tbody =
          Toggle.TBody.errorRow (Toggle.errorRowHtml msg) ∧
      List.IsInfix msg.data (Toggle.errorRowHtml msg).data) ∧
    ((Toggle.loadLeaderboard papa st domain searchTerm
        (Toggle.FetchOutcome.httpResponse false status body)).1.dataset = st.dataset ∧
      (Toggle.loadLeaderboard papa st domain searchTerm
        (Toggle.FetchOutcome.httpResponse false status body)).1.tbody =
          Toggle.TBody.errorRow (Toggle.errorRowHtml (Toggle.httpErrorMessage status)) ∧
      List.IsInfix (Toggle.httpErrorMessage status).data
        (Toggle.errorRowHtml (Toggle.httpErrorMessage status)).data) :=
  ⟨⟨rfl, rfl, msg_infix_errorRowHtml msg⟩,
   ⟨rfl, rfl, msg_infix_errorRowHtml (Toggle.httpErrorMessage status)⟩⟩

/-- C8: `formatDate` of an unparsable date string.  `new Date(s)` never throws
for a string argument — it yields an invalid date — and `toLocaleDateString`
of an invalid date returns the string "Invalid Date" instead of throwing, so
the catch branch whose own comment promises "Return original if parsing
fails" is unreachable: the raw input is not returned. -/
theorem c8_formatDate_invalid_date_bug :
    Leaderboard.formatDate "not-a-date" = "Invalid Date" ∧
    Leaderboard.formatDate "not-a-date" ≠ "not-a-date" ∧
    Leaderboard.formatDate "2024-01-01" = "Jan 1, 2024" := by
  exact ⟨by decide, by decide, by decide⟩

/-- C9: activating the toggle flips the mode flag before reloading, so the
reload requests exactly the other of the two fixed CSV resources — never the
one for the previous mode — and the heading is set to the label for the new
mode. -/
theorem c9_toggle_loads_alternate_resource (papa : String → List Toggle.Row)
    (st : Toggle.PageState) (domain searchTerm : String) (outcome : Toggle.FetchOutcome) :
    (Toggle.toggleHandler papa st domain searchTerm outcome).2 =
        Toggle.requestedCsv (!st.checked) ∧
    Toggle.requestedCsv (!st.checked) ≠ Toggle.requestedCsv st.checked ∧
    (Toggle.toggleHandler papa st domain searchTerm outcome).1.isOracleMode = (!st.checked) ∧
    (Toggle.toggleHandler papa st domain searchTerm outcome).1.titleText =
        Toggle.oracleTitle (!st.checked) := by
  have key : ∀ (st1 : Toggle.PageState),
      (Toggle.loadLeaderboard papa st1 domain searchTerm outcome).1.isOracleMode =
          st1.isOracleMode ∧
      (Toggle.loadLeaderboard papa st1 domain searchTerm outcome).1.titleText =
          st1.titleText ∧
      (Toggle.loadLeaderboard papa st1 domain searchTerm outcome).2 =
          Toggle.requestedCsv st1.isOracleMode := by
    intro st1
    cases outcome with
    | networkError msg => exact ⟨rfl, rfl, rfl⟩
    | httpResponse ok status body =>
      cases ok
      · exact ⟨rfl, rfl, rfl⟩
      · exact ⟨rfl, rfl, rfl⟩
  refine ⟨(key _).2.2, ?_, (key _).1, (key _).2.1⟩
  cases h : st.checked <;> decide

/-- Quote characters are untouched by the text-node serialisation, character
by character. -/
theorem count_quote_escapeHtmlChar (c : Char) :
    ((escapeHtmlChar c).data.count '"' = [c].count '"') ∧
    ((escapeHtmlChar c).data.count (Char.ofNat 39) = [c].count (Char.ofNat 39)) := by
  rw [escapeHtmlChar]
  by_cases e1 : c = '&'
  · subst e1
    exact ⟨by decide, by decide⟩
  rw [if_neg e1]
  by_cases e2 : c = Char.ofNat 160
  · subst e2
    exact ⟨by decide, by decide⟩
  rw [if_neg e2]
  by_cases e3 : c = '<'
  · subst e3
    exact ⟨by decide, by decide⟩
  rw [if_neg e3]
  by_cases e4 : c = '>'
  · subst e4
    exact ⟨by decide, by decide⟩
  rw [if_neg e4]
  exact ⟨rfl, rfl⟩

/-- Quote characters survive escaping verbatim: their number of occurrences is
unchanged. -/
theorem count_quote_escapeHtmlList (l : List Char) :
    ((escapeHtmlList l).count '"' = l.count '"') ∧
    ((escapeHtmlList l).count (Char.ofNat 39) = l.count (Char.ofNat 39)) := by
  induction l with
  | nil => exact ⟨rfl, rfl⟩
  | cons c cs ih =>
    rw [escapeHtmlList, show (c :: cs) = [c] ++ cs from rfl]
    constructor
    · rw [List.count_append, List.count_append, (count_quote_escapeHtmlChar c).1, ih.1]
    · rw [List.count_append, List.count_append, (count_quote_escapeHtmlChar c).2, ih.2]

/-- C10 counterexample: the DOM serialisation behind `escapeHtml` also
replaces U+00A0 NO-BREAK SPACE by the `&nbsp;` entity, so "only &, < and >
are replaced, every other character passes through" fails at that character. -/
theorem c10_cx_nbsp_escaped :
    escapeHtml (String.singleton (Char.ofNat 160)) = "&nbsp;" ∧
    escapeHtmlClaimed (String.singleton (Char.ofNat 160)) = String.singleton (Char.ofNat 160) ∧
    escapeHtml (String.singleton (Char.ofNat 160)) ≠
      escapeHtmlClaimed (String.singleton (Char.ofNat 160)) := by
  exact ⟨by decide, by decide, by decide⟩

/-- C10 (amended): `escapeHtml` replaces exactly the four characters `&`,
U+00A0, `<` and `>` and leaves every other character unchanged; in particular
double- and single-quote characters pass through verbatim (occurrence counts
are preserved), even though the escaped paper URL is interpolated directly
into the double-quoted `href` attribute of the paper-link cell. -/
theorem c10_escapeHtml_quotes_pass_through (c : Char) (s url : String)
    (h1 : c ≠ '&') (h2 : c ≠ '<') (h3 : c ≠ '>') (h4 : c ≠ Char.ofNat 160) :
    escapeHtmlChar c = String.singleton c ∧
    (escapeHtml s).data.count '"' = s.data.count '"' ∧
    (escapeHtml s).data.count (Char.ofNat 39) = s.data.count (Char.ofNat 39) ∧
    Simple.paperCell (some url) =
      "<a href=\"" ++ escapeHtml url ++ "\" target=\"_blank\" title=\"View paper\">" ++
        "📄" ++ "</a>" := by
  refine ⟨?_, (count_quote_escapeHtmlList s.data).1, (count_quote_escapeHtmlList s.data).2, rfl⟩
  rw [escapeHtmlChar, if_neg h1, if_neg h4, if_neg h2, if_neg h3]

/-- C10 witness: the amended statement at a concrete character and at strings
holding both quote characters. -/
theorem c10_witness :
    escapeHtmlChar 'x' = String.singleton 'x' ∧
    (escapeHtml "a\"b").data.count '"' = ("a\"b" : String).data.count '"' ∧
    (escapeHtml "a\"b").data.count (Char.ofNat 39) =
      ("a\"b" : String).data.count (Char.ofNat 39) ∧
    Simple.paperCell (some "u\"v") =
      "<a href=\"" ++ escapeHtml "u\"v" ++ "\" target=\"_blank\" title=\"View paper\">" ++
        "📄" ++ "</a>" :=
  c10_escapeHtml_quotes_pass_through 'x' "a\"b" "u\"v"
    (by decide) (by decide) (by decide) (by decide)

/-- Nothing appears in the empty-dataset outcome. -/
theorem appearsIn_noData (e : Toggle.Row) : ¬Toggle.appearsIn Toggle.RenderResult.noData e := by
  rintro ⟨rows, heq, -⟩
  exact Toggle.RenderResult.noConfusion heq

/-- Nothing appears in the no-matching-results outcome. -/
theorem appearsIn_noMatching (e : Toggle.Row) :
    ¬Toggle.appearsIn Toggle.RenderResult.noMatching e := by
  rintro ⟨rows, heq, -⟩
  exact Toggle.RenderResult.noConfusion heq

/-- Membership in a rendered table, unfolded. -/
theorem appearsIn_table (rows : List Toggle.RenderedRow) (e : Toggle.Row) :
    Toggle.appearsIn (Toggle.RenderResult.table rows) e ↔ ∃ r ∈ rows, r.entry = e := by
  constructor
  · rintro ⟨rows', heq, h⟩
    injection heq with h2
    subst h2
    exact h
  · intro h
    exact ⟨rows, rfl, h⟩

/-- The rendered row remembers the dataset row it came from. -/
theorem renderRow_entry (m : List (String × ℕ)) (dom searchTerm : String) (e : Toggle.Row) :
    (Toggle.renderRow m dom searchTerm e).entry = e := rfl

/-- An inactive search leaves the valid set unnarrowed. -/
theorem searchedValid_no_search (data : List Toggle.Row) (dom : String) :
    Toggle.searchedValid data dom "" = data.filter (Toggle.validForB dom) := rfl

/-- C5 counterexample: in the toggle variant — the only variant with a search
box — a non-empty dataset with zero rows valid for the chosen column does not
produce a distinct "no data for this domain" message: it produces the very
same "No matching results found" message as a search with zero matches, so
the three empty states do not carry three distinct messages. -/
theorem c5_cx_domain_message_not_distinct :
    Toggle.messageOf (Toggle.displayLeaderboard [rowA, rowB] "biomedical" "") =
      some "No matching results found" ∧
    Toggle.messageOf (Toggle.displayLeaderboard [rowA, rowB] "overall" "zzz") =
      some "No matching results found" ∧
    "No matching results found" ≠ "No data available for this domain" := by
  exact ⟨by decide, by decide, by decide⟩

/-- C5 (amended): each variant distinguishes only two empty states.  The
toggle variant renders "No data available" for an empty dataset and the one
message "No matching results found" both when no row is valid for the column
and when a search matches nothing; the single-file variant (which has no
search) renders "No data available" for an empty dataset and the distinct
"No data available for this domain" when no row is valid; the three message
texts are pairwise distinct. -/
theorem c5_empty_state_messages :
    (∀ domain searchTerm, Toggle.messageOf (Toggle.displayLeaderboard [] domain searchTerm) =
        some "No data available") ∧
    (∀ (data : List Toggle.Row) (domain searchTerm : String), data ≠ [] →
        Toggle.searchedValid data (Toggle.adjustDomain domain) searchTerm = [] →
        Toggle.messageOf (Toggle.displayLeaderboard data domain searchTerm) =
          some "No matching results found") ∧
    (∀ (sdata : List Simple.SRow) (domain : String), sdata ≠ [] →
        sdata.filter (Simple.validForB domain) = [] →
        Simple.messageOf (Simple.displayLeaderboard sdata domain) =
          some "No data available for this domain") ∧
    (∀ domain, Simple.messageOf (Simple.displayLeaderboard [] domain) =
        some "No data available") ∧
    ("No data available" ≠ "No matching results found" ∧
      "No data available" ≠ "No data available for this domain" ∧
      "No matching results found" ≠ "No data available for this domain") := by
  refine ⟨fun domain searchTerm => rfl, ?_, ?_, fun domain => rfl, by decide, by decide, by decide⟩
  · intro data domain searchTerm hne hse
    have h1 : ¬(data.isEmpty = true) := by
      cases data with
      | nil => exact absurd rfl hne
      | cons a as => simp
    simp [Toggle.displayLeaderboard, h1, hse, Toggle.messageOf]
  · intro sdata domain hne hse
    have h1 : ¬(sdata.isEmpty = true) := by
      cases sdata with
      | nil => exact absurd rfl hne
      | cons a as => simp
    simp [Simple.displayLeaderboard, h1, hse, Simple.messageOf]

/-- C5 witness: the amended statement at concrete inputs — a one-row dataset
under the absent column "biomedical" in each variant. -/
theorem c5_witness :
    Toggle.messageOf (Toggle.displayLeaderboard [rowA] "biomedical" "") =
      some "No matching results found" ∧
    Simple.messageOf (Simple.displayLeaderboard [srowA] "biomedical") =
      some "No data available for this domain" :=
  ⟨c5_empty_state_messages.2.1 [rowA] "biomedical" "" (by decide) (by decide),
   c5_empty_state_messages.2.2.1 [srowA] "biomedical" (by decide) (by decide)⟩

/-- C3 counterexample: the string "Infinity" parses to positive infinity,
which is not a finite number, yet the row carrying it passes the validity
filter and is rendered (with score cell "Infinity%") — so "appears iff the
value parses to a non-negative finite number" fails in the finiteness
direction. -/
theorem c3_cx_infinity_accepted :
    Toggle.appearsIn (Toggle.displayLeaderboard [rowInf] "overall" "") rowInf ∧
    ¬specFiniteNonNegative "Infinity" := by
  constructor
  · have h : Toggle.displayLeaderboard [rowInf] "overall" "" =
        Toggle.RenderResult.table
          [{ entry := rowInf, rank := some 1, medalClass := some "rank-1",
             systemText := "Inf", modelText := "M", scoreCell := "Infinity%" }] := by
      decide
    rw [h, appearsIn_table]
    exact ⟨_, List.mem_singleton_self _, rfl⟩
  · rintro ⟨d, hd, -⟩
    have h0 : jsParseFloat "Infinity" = JSNum.posInf := by decide
    rw [h0] at hd
    exact JSNum.noConfusion hd

/-- C3 (amended): a dataset row appears in the unfiltered rendered output iff
it is in the dataset and its value in the (case-adjusted) selected column
parses to a value that is not NaN and compares `>= 0` — this accepts positive
infinity (e.g. the literal string "Infinity") besides finite non-negative
values; non-numeric strings and negative values never appear. -/
theorem c3_valid_appears_iff (data : List Toggle.Row) (domain : String) (e : Toggle.Row) :
    Toggle.appearsIn (Toggle.displayLeaderboard data domain "") e ↔
      e ∈ data ∧ Toggle.validForB (Toggle.adjustDomain domain) e = true := by
  by_cases hd : data.isEmpty = true
  · have hdata : data = [] := List.isEmpty_iff.mp hd
    subst hdata
    have h : Toggle.displayLeaderboard [] domain "" = Toggle.RenderResult.noData := rfl
    rw [h]
    simp [appearsIn_noData]
  · by_cases he :
        (data.filter (Toggle.validForB (Toggle.adjustDomain domain))).isEmpty = true
    · have h : Toggle.displayLeaderboard data domain "" = Toggle.RenderResult.noMatching := by
        simp [Toggle.displayLeaderboard, hd, searchedValid_no_search, he]
      rw [h]
      constructor
      · intro hap
        exact absurd hap (appearsIn_noMatching e)
      · rintro ⟨hmem, hval⟩
        have hin : e ∈ data.filter (Toggle.validForB (Toggle.adjustDomain domain)) :=
          List.mem_filter.mpr ⟨hmem, hval⟩
        rw [List.isEmpty_iff.mp he] at hin
        simp at hin
    · have h : Toggle.displayLeaderboard data domain "" =
          Toggle.RenderResult.table
            ((sortLe (Toggle.displaySortLe (Toggle.originalRankMap data (Toggle.adjustDomain domain))
                (Toggle.adjustDomain domain) "")
                (data.filter (Toggle.validForB (Toggle.adjustDomain domain)))).map
              (Toggle.renderRow (Toggle.originalRankMap data (Toggle.adjustDomain domain))
                (Toggle.adjustDomain domain) "")) := by
        simp [Toggle.displayLeaderboard, hd, searchedValid_no_search, he]
      rw [h, appearsIn_table]
      constructor
      · rintro ⟨r, hr, hre⟩
        rcases List.mem_map.mp hr with ⟨x, hx, hxr⟩
        have hxe : x = e := by
          rw [← hxr, renderRow_entry] at hre
          exact hre
        subst hxe
        exact List.mem_filter.mp ((mem_sortLe _ _ _).mp hx)
      · rintro ⟨hmem, hval⟩
        exact ⟨Toggle.renderRow _ _ "" e,
          List.mem_map_of_mem _ ((mem_sortLe _ _ _).mpr (List.mem_filter.mpr ⟨hmem, hval⟩)),
          rfl⟩

/-- The score a valid row contributes to sorting: positive infinity or a
finite non-negative value (NaN and negatives are excluded by the filter, and
`|| 0` cannot fire on NaN here). -/
theorem scoreOrZero_of_valid (dom : String) (e : Toggle.Row)
    (h : Toggle.validForB dom e = true) :
    Toggle.scoreOrZero dom e = JSNum.posInf ∨
      ∃ d : Dec, Toggle.scoreOrZero dom e = JSNum.num d ∧ 0 ≤ d.num := by
  rw [Toggle.validForB] at h
  rw [Toggle.scoreOrZero]
  cases hp : jsParseFloat (tmplStr (Toggle.colValue e dom)) with
  | nan =>
    rw [hp] at h
    simp [jsIsNaN] at h
  | posInf =>
    left
    rfl
  | negInf =>
    rw [hp] at h
    simp [jsIsNaN, jsGeZero] at h
  | num d =>
    right
    rw [hp] at h
    simp only [jsIsNaN, jsGeZero, Bool.and_eq_true, Bool.not_true, decide_eq_true_eq] at h
    by_cases hz : d.num = 0
    · exact ⟨⟨0, 0⟩, by simp [jsOrZero, hz], by simp⟩
    · exact ⟨d, by simp [jsOrZero, hz], h.2⟩

/-- Proof-side sort key of a valid row: its score in `WithTop ℚ` (infinity on
top). -/
def scoreKey (dom : String) (e : Toggle.Row) : WithTop ℚ :=
  match Toggle.scoreOrZero dom e with
  | JSNum.posInf => ⊤
  | JSNum.num d => (d.toRat : WithTop ℚ)
  | _ => (0 : ℚ)

/-- On valid rows the comparator relation is exactly the descending order of
the sort keys. -/
theorem descLe_iff_key (dom : String) (a b : Toggle.Row)
    (ha : Toggle.validForB dom a = true) (hb : Toggle.validForB dom b = true) :
    Toggle.descLe dom a b = true ↔ scoreKey dom b ≤ scoreKey dom a := by
  rcases scoreOrZero_of_valid dom a ha with hA | ⟨dA, hA, hdA⟩ <;>
    rcases scoreOrZero_of_valid dom b hb with hB | ⟨dB, hB, hdB⟩
  · rw [Toggle.descLe, hA, hB]
    simp [jsSub, jsCmpNonPos, scoreKey, hA, hB]
  · rw [Toggle.descLe, hA, hB]
    simp [jsSub, jsCmpNonPos, scoreKey, hA, hB, le_top]
  · rw [Toggle.descLe, hA, hB]
    simp only [jsSub, jsCmpNonPos, scoreKey, hA, hB]
    constructor
    · intro h
      cases h
    · intro h
      exact absurd h (WithTop.not_top_le_coe _)
  · rw [Toggle.descLe, hA, hB]
    simp only [jsSub, jsCmpNonPos, scoreKey, hA, hB, decide_eq_true_eq]
    rw [Dec.sub_nonpos_iff]
    exact (WithTop.coe_le_coe).symm

/-- The comparator is total on valid rows. -/
theorem descLe_total_of_valid (dom : String) (a b : Toggle.Row)
    (ha : Toggle.validForB dom a = true) (hb : Toggle.validForB dom b = true) :
    Toggle.descLe dom a b = true ∨ Toggle.descLe dom b a = true := by
  rcases le_total (scoreKey dom b) (scoreKey dom a) with h | h
  · exact Or.inl ((descLe_iff_key dom a b ha hb).mpr h)
  · exact Or.inr ((descLe_iff_key dom b a hb ha).mpr h)

/-- The comparator is transitive on valid rows. -/
theorem descLe_trans_of_valid (dom : String) (a b c : Toggle.Row)
    (ha : Toggle.validForB dom a = true) (hb : Toggle.validForB dom b = true)
    (hc : Toggle.validForB dom c = true)
    (hab : Toggle.descLe dom a b = true) (hbc : Toggle.descLe dom b c = true) :
    Toggle.descLe dom a c = true := by
  rw [descLe_iff_key dom a b ha hb] at hab
  rw [descLe_iff_key dom b c hb hc] at hbc
  exact (descLe_iff_key dom a c ha hc).mpr (le_trans hbc hab)

/-- When the search is inactive the display sort is the score-descending sort. -/
theorem displaySortLe_no_search (m : List (String × ℕ)) (dom : String) :
    Toggle.displaySortLe m dom "" = Toggle.descLe dom := by
  funext a b
  rw [Toggle.displaySortLe]
  simp [Toggle.hasSearch]

/-- Mapping the rendered rows back to their dataset rows recovers the sorted
list that was rendered. -/
theorem map_entry_renderRow (m : List (String × ℕ)) (dom searchTerm : String)
    (l : List Toggle.Row) :
    (l.map (Toggle.renderRow m dom searchTerm)).map Toggle.RenderedRow.entry = l := by
  rw [List.map_map]
  have h : Toggle.RenderedRow.entry ∘ Toggle.renderRow m dom searchTerm = id :=
    funext (fun x => rfl)
  rw [h, List.map_id]

/-- The rank cells of the rendered rows are the map lookups of the rendered
dataset rows. -/
theorem map_rank_renderRow (m : List (String × ℕ)) (dom searchTerm : String)
    (l : List Toggle.Row) :
    (l.map (Toggle.renderRow m dom searchTerm)).map Toggle.RenderedRow.rank =
      l.map (fun e => mapGet m (Toggle.uniqueId dom e)) := by
  rw [List.map_map]
  rfl

/-- With pairwise-distinct keys, looking every list element up in the rank map
built over the list yields exactly the positions `1, ..., N` in order. -/
theorem map_rank_of_nodup {α : Type} (key : α → String) (l : List α)
    (hnd : (l.map key).Nodup) :
    l.map (fun e => mapGet (buildRankMap key l) (key e)) =
      (List.range l.length).map (fun i => some (i + 1)) := by
  apply List.ext_get
  · simp
  · intro i h1 h2
    simp only [List.length_map] at h1
    rw [List.get_map, List.get_map, List.get_range]
    have := mapGet_buildRankMapFrom key l hnd 0 i h1
    simpa [buildRankMap] using this

/-- C2 counterexample: two distinct dataset rows (they differ in the Legal
column) with equal System, Models and Overall value collide on the composite
identity key; the later `Map.set` overwrites the earlier rank, and the
unfiltered render attaches rank 2 to both rows — the displayed ranks are not
the strictly increasing sequence 1, 2. -/
theorem c2_cx_collision_same_rank :
    Toggle.ranksOf (Toggle.displayLeaderboard [rowDup1, rowDup2] "overall" "") =
      some [some 2, some 2] ∧
    rowDup1 ≠ rowDup2 ∧
    ¬strictRanks [some 2, some 2] := by
  refine ⟨by decide, by decide, ?_⟩
  rw [strictRanks]
  decide

/-- C2 (amended): provided no two valid rows collide on the composite
identity key System-Models-rounded score (keys are pairwise distinct), the
unfiltered render attaches the rank cells `1, 2, ..., N` in order to the rows
sorted descending by the selected column's parsed value; rows with equal
value but distinct keys thus receive distinct consecutive ranks.  Colliding
rows (same name, model and value rounded to three decimals) instead share the
last-assigned rank. -/
theorem c2_unfiltered_ranks (data : List Toggle.Row) (domain : String)
    (rows : List Toggle.RenderedRow)
    (hnd : ((Toggle.allValidSorted data (Toggle.adjustDomain domain)).map
        (Toggle.uniqueId (Toggle.adjustDomain domain))).Nodup)
    (ht : Toggle.displayLeaderboard data domain "" = Toggle.RenderResult.table rows) :
    rows.map Toggle.RenderedRow.rank =
      (List.range rows.length).map (fun i => some (i + 1)) ∧
    rows.map Toggle.RenderedRow.entry =
      Toggle.allValidSorted data (Toggle.adjustDomain domain) ∧
    (rows.map Toggle.RenderedRow.entry).Pairwise
      (fun a b => Toggle.descLe (Toggle.adjustDomain domain) a b = true) := by
  by_cases hd : data.isEmpty = true
  · rw [Toggle.displayLeaderboard, if_pos hd] at ht
    exact absurd ht (by simp)
  · by_cases he :
        (data.filter (Toggle.validForB (Toggle.adjustDomain domain))).isEmpty = true
    · have h : Toggle.displayLeaderboard data domain "" = Toggle.RenderResult.noMatching := by
        simp [Toggle.displayLeaderboard, hd, searchedValid_no_search, he]
      rw [h] at ht
      exact absurd ht (by simp)
    · have h : Toggle.displayLeaderboard data domain "" =
          Toggle.RenderResult.table
            ((Toggle.allValidSorted data (Toggle.adjustDomain domain)).map
              (Toggle.renderRow (Toggle.originalRankMap data (Toggle.adjustDomain domain))
                (Toggle.adjustDomain domain) "")) := by
        simp only [Toggle.displayLeaderboard, hd, searchedValid_no_search, he,
          if_false, Bool.false_eq_true, displaySortLe_no_search]
        rfl
      rw [h] at ht
      injection ht with hrows
      subst hrows
      refine ⟨?_, map_entry_renderRow _ _ _ _, ?_⟩
      · rw [map_rank_renderRow, Toggle.originalRankMap,
          map_rank_of_nodup (Toggle.uniqueId (Toggle.adjustDomain domain))
            (Toggle.allValidSorted data (Toggle.adjustDomain domain)) hnd]
        simp
      · rw [map_entry_renderRow]
        apply pairwise_sortLe
        · intro a haMem b hbMem
          exact descLe_total_of_valid _ a b
            (List.mem_filter.mp haMem).2 (List.mem_filter.mp hbMem).2
        · intro a haMem b hbMem c hcMem hab hbc
          exact descLe_trans_of_valid _ a b c
            (List.mem_filter.mp haMem).2 (List.mem_filter.mp hbMem).2
            (List.mem_filter.mp hcMem).2 hab hbc

/-- The rendered rows of the two-row sample dataset under the Overall column. -/
def sampleRendered : List Toggle.RenderedRow :=
  [{ entry := rowA, rank := some 1, medalClass := some "rank-1",
     systemText := "Alpha", modelText := "M1", scoreCell := "90.0%" },
   { entry := rowB, rank := some 2, medalClass := some "rank-2",
     systemText := "Beta", modelText := "M2", scoreCell := "80.0%" }]

/-- C2 witness: the amended statement at a concrete two-row dataset with
distinct keys under the Overall column, where the render attaches ranks 1, 2. -/
theorem c2_witness :
    sampleRendered.map Toggle.RenderedRow.rank =
      (List.range sampleRendered.length).map (fun i => some (i + 1)) ∧
    sampleRendered.map Toggle.RenderedRow.entry =
      Toggle.allValidSorted [rowA, rowB] (Toggle.adjustDomain "overall") ∧
    (sampleRendered.map Toggle.RenderedRow.entry).Pairwise
      (fun a b => Toggle.descLe (Toggle.adjustDomain "overall") a b = true) :=
  c2_unfiltered_ranks [rowA, rowB] "overall" sampleRendered (by decide) (by decide)

/-- Transport a pairwise Boolean relation along a map. -/
theorem pairwise_map_of_pairwise {α β : Type} (f : α → β) (R : α → α → Bool)
    (S : β → β → Prop) (l : List α) (H : ∀ a b, R a b = true → S (f a) (f b))
    (hp : l.Pairwise (fun x y => R x y = true)) : (l.map f).Pairwise S := by
  induction l with
  | nil => simp
  | cons a as ih =>
    rw [List.pairwise_cons] at hp
    simp only [List.map_cons, List.pairwise_cons]
    constructor
    · intro b hb
      rcases List.mem_map.mp hb with ⟨x, hx, hxb⟩
      rw [← hxb]
      exact H a x (hp.1 x hx)
    · exact ih hp.2

/-- An active search narrows the valid set by the search predicate. -/
theorem searchedValid_search (data : List Toggle.Row) (dom searchTerm : String)
    (hs : Toggle.hasSearch searchTerm = true) :
    Toggle.searchedValid data dom searchTerm =
      (data.filter (Toggle.validForB dom)).filter
        (Toggle.matchesSearch (jsToLower (jsTrim searchTerm))) := by
  simp [Toggle.searchedValid, hs]

/-- With an active search the display sort compares looked-up global ranks. -/
theorem displaySortLe_search (m : List (String × ℕ)) (dom searchTerm : String)
    (hs : Toggle.hasSearch searchTerm = true) (a b : Toggle.Row) :
    Toggle.displaySortLe m dom searchTerm a b =
      decide (Toggle.rankOr999 m dom a ≤ Toggle.rankOr999 m dom b) := by
  simp [Toggle.displaySortLe, hs]

/-- Shape of an unfiltered render that produced a table: its rows are the
valid rows in score-descending order, each rendered against the global rank
map. -/
theorem display_no_search_table (data : List Toggle.Row) (domain : String)
    (rows0 : List Toggle.RenderedRow)
    (hu : Toggle.displayLeaderboard data domain "" = Toggle.RenderResult.table rows0) :
    rows0 = (Toggle.allValidSorted data (Toggle.adjustDomain domain)).map
      (Toggle.renderRow (Toggle.originalRankMap data (Toggle.adjustDomain domain))
        (Toggle.adjustDomain domain) "") := by
  by_cases hd : data.isEmpty = true
  · rw [Toggle.displayLeaderboard, if_pos hd] at hu
    exact absurd hu (by simp)
  · by_cases he :
        (data.filter (Toggle.validForB (Toggle.adjustDomain domain))).isEmpty = true
    · have h : Toggle.displayLeaderboard data domain "" = Toggle.RenderResult.noMatching := by
        simp [Toggle.displayLeaderboard, hd, searchedValid_no_search, he]
      rw [h] at hu
      exact absurd hu (by simp)
    · have h : Toggle.displayLeaderboard data domain "" =
          Toggle.RenderResult.table
            ((Toggle.allValidSorted data (Toggle.adjustDomain domain)).map
              (Toggle.renderRow (Toggle.originalRankMap data (Toggle.adjustDomain domain))
                (Toggle.adjustDomain domain) "")) := by
        simp only [Toggle.displayLeaderboard, hd, searchedValid_no_search, he,
          if_false, Bool.false_eq_true, displaySortLe_no_search]
        rfl
      rw [h] at hu
      injection hu with hrows
      exact hrows.symm

/-- Shape of a searched render that produced a table: its rows are the
search-narrowed valid rows sorted by the display relation, rendered against
the same global rank map as the unfiltered render. -/
theorem display_search_table (data : List Toggle.Row) (domain searchTerm : String)
    (rows : List Toggle.RenderedRow)
    (hs : Toggle.hasSearch searchTerm = true)
    (hf : Toggle.displayLeaderboard data domain searchTerm =
      Toggle.RenderResult.table rows) :
    rows = (sortLe
        (Toggle.displaySortLe (Toggle.originalRankMap data (Toggle.adjustDomain domain))
          (Toggle.adjustDomain domain) searchTerm)
        ((data.filter (Toggle.validForB (Toggle.adjustDomain domain))).filter
          (Toggle.matchesSearch (jsToLower (jsTrim searchTerm))))).map
      (Toggle.renderRow (Toggle.originalRankMap data (Toggle.adjustDomain domain))
        (Toggle.adjustDomain domain) searchTerm) := by
  by_cases hd : data.isEmpty = true
  · rw [Toggle.displayLeaderboard, if_pos hd] at hf
    exact absurd hf (by simp)
  · by_cases he :
        (Toggle.searchedValid data (Toggle.adjustDomain domain) searchTerm).isEmpty = true
    · have h : Toggle.displayLeaderboard data domain searchTerm =
          Toggle.RenderResult.noMatching := by
        simp [Toggle.displayLeaderboard, hd, he]
      rw [h] at hf
      exact absurd hf (by simp)
    · have h : Toggle.displayLeaderboard data domain searchTerm =
          Toggle.RenderResult.table
            ((sortLe
              (Toggle.displaySortLe (Toggle.originalRankMap data (Toggle.adjustDomain domain))
                (Toggle.adjustDomain domain) searchTerm)
              (Toggle.searchedValid data (Toggle.adjustDomain domain) searchTerm)).map
              (Toggle.renderRow (Toggle.originalRankMap data (Toggle.adjustDomain domain))
                (Toggle.adjustDomain domain) searchTerm)) := by
        simp only [Toggle.displayLeaderboard, hd, he, if_false, Bool.false_eq_true]
      rw [h] at hf
      injection hf with hrows
      rw [hrows.symm, searchedValid_search data _ searchTerm hs]

/-- C1: with an active search, every surviving row is displayed with exactly
the rank cell it gets in the unfiltered render of the same column — both are
the same lookup in the same precomputed global-rank map, which the search
never touches — the lookup always succeeds, and the surviving rows are listed
in ascending order of that looked-up global rank. -/
theorem c1_search_preserves_ranks (data : List Toggle.Row) (domain searchTerm : String)
    (rows rows0 : List Toggle.RenderedRow)
    (hs : Toggle.hasSearch searchTerm = true)
    (hf : Toggle.displayLeaderboard data domain searchTerm =
      Toggle.RenderResult.table rows)
    (hu : Toggle.displayLeaderboard data domain "" = Toggle.RenderResult.table rows0) :
    (∀ r ∈ rows, r.rank.isSome = true ∧
      ∃ r0 ∈ rows0, r0.entry = r.entry ∧ r0.rank = r.rank) ∧
    (rows.map (fun r => jsRankOr999 r.rank)).Pairwise (· ≤ ·) := by
  have hrows := display_search_table data domain searchTerm rows hs hf
  have hrows0 := display_no_search_table data domain rows0 hu
  subst hrows
  subst hrows0
  constructor
  · intro r hr
    rcases List.mem_map.mp hr with ⟨e, heMem, hre⟩
    have heSearched := (mem_sortLe _ _ _).mp heMem
    have heValid : e ∈ data.filter (Toggle.validForB (Toggle.adjustDomain domain)) :=
      (List.mem_filter.mp heSearched).1
    have heAll : e ∈ Toggle.allValidSorted data (Toggle.adjustDomain domain) :=
      (mem_sortLe _ _ _).mpr heValid
    constructor
    · rw [← hre]
      exact mapGet_buildRankMap_isSome _ _ e heAll
    · refine ⟨Toggle.renderRow _ _ "" e, List.mem_map_of_mem _ heAll, ?_, ?_⟩
      · rw [← hre]
        rfl
      · rw [← hre]
        rfl
  · have hp := pairwise_sortLe
      (Toggle.displaySortLe (Toggle.originalRankMap data (Toggle.adjustDomain domain))
        (Toggle.adjustDomain domain) searchTerm)
      ((data.filter (Toggle.validForB (Toggle.adjustDomain domain))).filter
        (Toggle.matchesSearch (jsToLower (jsTrim searchTerm))))
      (by
        intro a _ b _
        rw [displaySortLe_search _ _ _ hs, displaySortLe_search _ _ _ hs]
        simp only [decide_eq_true_eq]
        exact Nat.le_total _ _)
      (by
        intro a _ b _ c _ hab hbc
        rw [displaySortLe_search _ _ _ hs] at hab hbc ⊢
        simp only [decide_eq_true_eq] at hab hbc ⊢
        exact le_trans hab hbc)
    rw [List.map_map]
    refine pairwise_map_of_pairwise _ _ _ _ (fun a b hab => ?_) hp
    rw [displaySortLe_search _ _ _ hs] at hab
    simp only [decide_eq_true_eq] at hab
    exact hab

/-- The single row the search "alp" leaves rendered, its match highlighted. -/
def sampleFiltered : List Toggle.RenderedRow :=
  [{ entry := rowA, rank := some 1, medalClass := some "rank-1",
     systemText := "<mark>Alp</mark>ha", modelText := "M1", scoreCell := "90.0%" }]

/-- C1 witness: searching "alp" over the two-row sample dataset keeps only the
Alpha row, displayed with the same rank cell (1) as in the unfiltered render,
in ascending rank order. -/
theorem c1_witness :
    (∀ r ∈ sampleFiltered, r.rank.isSome = true ∧
      ∃ r0 ∈ sampleRendered, r0.entry = r.entry ∧ r0.rank = r.rank) ∧
    (sampleFiltered.map (fun r => jsRankOr999 r.rank)).Pairwise (· ≤ ·) :=
  c1_search_preserves_ranks [rowA, rowB] "overall" "alp"
    sampleFiltered sampleRendered (by decide) (by decide) (by decide)

/-- C4 counterexample: the escaped search term is used as regex source without
regex-escaping, so `.` is a metacharacter: searching "a.c" wraps "axc" in the
name cell, which is not an occurrence of the literal term "a.c" — rendering
differs from escape-then-wrap-literal-occurrences. -/
theorem c4_cx_regex_not_literal :
    Toggle.highlightedText "a.c" "axc" = "<mark>axc</mark>" ∧
    specLiteralHighlight "a.c" "axc" = "axc" ∧
    Toggle.highlightedText "a.c" "axc" ≠ specLiteralHighlight "a.c" "axc" :=
  ⟨by decide, by decide, by decide⟩

/-- C4 (amended): the name/model cell text is produced by escaping first and
then wrapping the matches of the escaped term — interpreted as a
case-insensitive regular expression, not as a literal string.  Every `<` in
the rendered cell opens a `<mark>` or `</mark>` tag, so no search term (in
particular not `<script>`) can introduce further markup; and whenever the
escaped term contains no regex metacharacter, the wrapped matches are exactly
the case-insensitive occurrences of the literal term. -/
theorem c4_escape_before_highlight :
    (∀ searchTerm raw : String,
      marksOnlyB (Toggle.highlightedText searchTerm raw).data = true) ∧
    (∀ searchTerm raw : String,
      compilePattern (escapeHtmlList (jsTrim searchTerm).data) =
        some ((escapeHtmlList (jsTrim searchTerm).data).map PatTok.lit) →
      Toggle.highlightedText searchTerm raw = specLiteralHighlight searchTerm raw) := by
  constructor
  · intro searchTerm raw
    by_cases hs : Toggle.hasSearch searchTerm = true
    · cases hc : compilePattern (escapeHtmlList (jsTrim searchTerm).data) with
      | none =>
        have h : Toggle.highlightedText searchTerm raw =
            String.mk (escapeHtmlList raw.data) := by
          simp [Toggle.highlightedText, hs, hc]
        rw [h]
        exact marksOnlyB_noLt _ (escapeHtmlList_no_lt _)
      | some ts =>
        have h : Toggle.highlightedText searchTerm raw =
            String.mk (replaceAllMarks ts (escapeHtmlList raw.data)) := by
          simp [Toggle.highlightedText, hs, hc]
        rw [h]
        exact marksOnlyB_replaceAllMarks ts _ (escapeHtmlList_no_lt _)
    · have h : Toggle.highlightedText searchTerm raw =
          String.mk (escapeHtmlList raw.data) := by
        simp [Toggle.highlightedText, hs]
      rw [h]
      exact marksOnlyB_noLt _ (escapeHtmlList_no_lt _)
  · intro searchTerm raw hlit
    by_cases hs : Toggle.hasSearch searchTerm = true
    · simp [Toggle.highlightedText, specLiteralHighlight, hs, hlit]
    · have ht : jsTrim searchTerm = "" := by
        rw [Toggle.hasSearch] at hs
        simp only [Bool.and_eq_true, decide_eq_true_eq, not_and] at hs
        by_cases h0 : searchTerm = ""
        · rw [h0]
          rfl
        · by_cases h1 : jsTrim searchTerm = ""
          · exact h1
          · exact absurd h1 (by simpa using hs h0)
      have hpat : escapeHtmlList (jsTrim searchTerm).data = [] := by
        rw [ht]
        rfl
      simp [Toggle.highlightedText, specLiteralHighlight, hs, hpat,
        replaceAllMarks_empty]

/-- C4 witness: the amended statement at the search term from the claim.  The
escaped form of `<script>` is `&lt;script&gt;`, which is metacharacter-free,
so the rendered cell for the raw name `x<script>y` wraps exactly the literal
occurrence — and contains no `<` outside the mark tags. -/
theorem c4_witness :
    marksOnlyB (Toggle.highlightedText "<script>" "x<script>y").data = true ∧
    Toggle.highlightedText "<script>" "x<script>y" =
      specLiteralHighlight "<script>" "x<script>y" :=
  ⟨c4_escape_before_highlight.1 "<script>" "x<script>y",
   c4_escape_before_highlight.2 "<script>" "x<script>y" (by decide)⟩

end Leaderboard
